import Mathlib

/-!
Shallow embedding of the boot-code interpreter from `src/08/main.rs`
(Advent of Code 2020, day 8).

Modelling choices:
- `Instruction` mirrors the Rust enum `Instruction` with variants
  `Nop`, `Acc`, `Jmp`.  Arguments are modelled as unbounded `Int`
  (the source uses `i32`; no claim exercises 32-bit overflow of the
  accumulator or of an argument).
- The instruction pointer is a `Nat` (Rust `usize`); `jmp_ip` reproduces
  the source cast chain `(ip as isize + jmp as isize) as usize`, which is
  addition reduced modulo 2^64 into the range `[0, 2^64)`.
- `BootCodeResult.terminated` and `.cyclic` mirror the Rust enum
  `BootCodeResult`.  `.panicked` models the Rust panic raised by an
  out-of-bounds index into the `executed` or `instructions` vectors;
  `.fuelOut` is an artifact of the fuel-based recursion and is proven
  unreachable for the fuel `run` actually supplies.
- `runAux` returns the outcome together with the list of every
  instruction-pointer value tested at the head of the `while` loop; the
  trace is used to state the assumed in-bounds precondition.
-/

inductive Instruction where
  | nop (val : Int)
  | acc (val : Int)
  | jmp (val : Int)
deriving DecidableEq

inductive BootCodeResult where
  | terminated (acc : Int)
  | cyclic (acc : Int)
  | panicked
  | fuelOut
deriving DecidableEq

/-- Source `jmp_ip`: cast `ip` to `isize`, add the `i32` offset `jmp`, cast
back to `usize`.  Two's-complement round trip: addition modulo 2^64. -/
def jmp_ip (ip : Nat) (jmp : Int) : Nat :=
  (((ip : Int) + jmp) % (2 : Int) ^ 64).toNat

/-- Prepend the instruction pointer tested at this loop iteration to the
trace of a recursive call. -/
def consTrace (ip : Nat) (r : BootCodeResult × List Nat) : BootCodeResult × List Nat :=
  (r.1, ip :: r.2)

/-- One evaluation of the body of `BootCode::run`, fuelled.  Each iteration
first tests `ip != instructions.len()` (loop condition), then indexes
`executed[ip]` (a panic when out of bounds), returning `Cyclic(acc)` on a
revisit and otherwise marking the index and executing the instruction. -/
def runAux (prog : List Instruction) : Nat → List Bool → Int → Nat → BootCodeResult × List Nat
  | 0, _, _, ip => (.fuelOut, [ip])
  | fuel + 1, executed, a, ip =>
    if ip = prog.length then
      (.terminated a, [ip])
    else
      match executed[ip]? with
      | none => (.panicked, [ip])
      | some true => (.cyclic a, [ip])
      | some false =>
        match prog[ip]? with
        | none => (.panicked, [ip])
        | some (.nop _) => consTrace ip (runAux prog fuel (executed.set ip true) a (ip + 1))
        | some (.acc v) => consTrace ip (runAux prog fuel (executed.set ip true) (a + v) (ip + 1))
        | some (.jmp v) => consTrace ip (runAux prog fuel (executed.set ip true) a (jmp_ip ip v))

/-- Source `BootCode::run`: accumulator 0, pointer 0, all visited markers
false.  Fuel `length + 1` is enough, as proven below. -/
def run (prog : List Instruction) : BootCodeResult :=
  (runAux prog (prog.length + 1) (List.replicate prog.length false) 0 0).1

/-- Every instruction-pointer value tested at the loop head during `run`,
including the final one (the one found visited, equal to the length, or out
of bounds). -/
def runPtrs (prog : List Instruction) : List Nat :=
  (runAux prog (prog.length + 1) (List.replicate prog.length false) 0 0).2

/-- Source `BootCode::run_with_fix`, iterating over instruction indices
from `ip` with `rem` indices still to visit.  A `Nop` is tried as `Jmp`
(and vice versa) on a copy; a `Terminated` candidate result is returned at
once; `Acc` is never a candidate; when the indices are exhausted the
original program is run.  A candidate run that panics propagates the
panic. -/
def run_with_fix_aux (orig : List Instruction) : Nat → Nat → BootCodeResult
  | 0, _ => run orig
  | rem + 1, ip =>
    match orig[ip]? with
    | none => run orig
    | some (.nop v) =>
      match run (orig.set ip (.jmp v)) with
      | .terminated a => .terminated a
      | .cyclic _ => run_with_fix_aux orig rem (ip + 1)
      | .panicked => .panicked
      | .fuelOut => .fuelOut
    | some (.jmp v) =>
      match run (orig.set ip (.nop v)) with
      | .terminated a => .terminated a
      | .cyclic _ => run_with_fix_aux orig rem (ip + 1)
      | .panicked => .panicked
      | .fuelOut => .fuelOut
    | some (.acc _) => run_with_fix_aux orig rem (ip + 1)

/-- Source `BootCode::run_with_fix`: enumerate the indices in ascending
order starting at 0. -/
def run_with_fix (orig : List Instruction) : BootCodeResult :=
  run_with_fix_aux orig orig.length 0

/-- Whether a result is `Terminated`. -/
def isTerminated : BootCodeResult → Bool
  | .terminated _ => true
  | _ => false

/-- Whether a result is `Cyclic`. -/
def isCyclic : BootCodeResult → Bool
  | .cyclic _ => true
  | _ => false

/-- The flip candidate at index `j` does not cause `run_with_fix` to return
early: either the instruction is `Acc` (never a candidate), the index is
out of range, or the flipped program runs to `Cyclic`. -/
def flipSkips (orig : List Instruction) (j : Nat) : Bool :=
  match orig[j]? with
  | some (.nop v) => isCyclic (run (orig.set j (.jmp v)))
  | some (.jmp v) => isCyclic (run (orig.set j (.nop v)))
  | some (.acc _) => true
  | none => true

/-- All single-flip candidate programs (index paired with the flipped
program), in ascending index order, exactly the candidates
`run_with_fix` tries. -/
def flipCandidates (orig : List Instruction) : List (Nat × List Instruction) :=
  (List.range orig.length).filterMap fun i =>
    match orig[i]? with
    | some (Instruction.nop v) => some (i, orig.set i (.jmp v))
    | some (Instruction.jmp v) => some (i, orig.set i (.nop v))
    | _ => none

/-- The 9-instruction example program from the day-8 puzzle statement
(`example.txt` of the source tree). -/
def ex9 : List Instruction :=
  [.nop 0, .acc 1, .jmp 4, .acc 3, .jmp (-3), .acc (-99), .acc 1, .jmp (-4), .acc 6]

/-! Unfolding lemmas for `runAux`, one per branch of the loop body. -/

theorem runAux_zero (prog : List Instruction) (ex : List Bool) (a : Int) (ip : Nat) :
    runAux prog 0 ex a ip = (.fuelOut, [ip]) := rfl

theorem runAux_len (prog : List Instruction) (f : Nat) (ex : List Bool) (a : Int) (ip : Nat)
    (h : ip = prog.length) : runAux prog (f + 1) ex a ip = (.terminated a, [ip]) := by
  simp [runAux, h]

theorem runAux_oob (prog : List Instruction) (f : Nat) (ex : List Bool) (a : Int) (ip : Nat)
    (h : ip ≠ prog.length) (hex : ex[ip]? = none) :
    runAux prog (f + 1) ex a ip = (.panicked, [ip]) := by
  simp [runAux, h, hex]

theorem runAux_revisit (prog : List Instruction) (f : Nat) (ex : List Bool) (a : Int) (ip : Nat)
    (h : ip ≠ prog.length) (hex : ex[ip]? = some true) :
    runAux prog (f + 1) ex a ip = (.cyclic a, [ip]) := by
  simp [runAux, h, hex]

theorem runAux_oob2 (prog : List Instruction) (f : Nat) (ex : List Bool) (a : Int) (ip : Nat)
    (h : ip ≠ prog.length) (hex : ex[ip]? = some false) (hpr : prog[ip]? = none) :
    runAux prog (f + 1) ex a ip = (.panicked, [ip]) := by
  simp [runAux, h, hex, hpr]

theorem runAux_nop (prog : List Instruction) (f : Nat) (ex : List Bool) (a : Int) (ip : Nat)
    (v : Int) (h : ip ≠ prog.length) (hex : ex[ip]? = some false)
    (hpr : prog[ip]? = some (.nop v)) :
    runAux prog (f + 1) ex a ip = consTrace ip (runAux prog f (ex.set ip true) a (ip + 1)) := by
  simp [runAux, h, hex, hpr]

theorem runAux_acc (prog : List Instruction) (f : Nat) (ex : List Bool) (a : Int) (ip : Nat)
    (v : Int) (h : ip ≠ prog.length) (hex : ex[ip]? = some false)
    (hpr : prog[ip]? = some (.acc v)) :
    runAux prog (f + 1) ex a ip
      = consTrace ip (runAux prog f (ex.set ip true) (a + v) (ip + 1)) := by
  simp [runAux, h, hex, hpr]

theorem runAux_jmp (prog : List Instruction) (f : Nat) (ex : List Bool) (a : Int) (ip : Nat)
    (v : Int) (h : ip ≠ prog.length) (hex : ex[ip]? = some false)
    (hpr : prog[ip]? = some (.jmp v)) :
    runAux prog (f + 1) ex a ip
      = consTrace ip (runAux prog f (ex.set ip true) a (jmp_ip ip v)) := by
  simp [runAux, h, hex, hpr]

/-- Marking a yet-unvisited index visited decreases the number of unvisited
markers by one. -/
theorem count_false_set_true (l : List Bool) (i : Nat) (h : l[i]? = some false) :
    (l.set i true).count false + 1 = l.count false := by
  induction l generalizing i with
  | nil => simp at h
  | cons b t ih =>
    cases i with
    | zero =>
      simp at h
      subst h
      simp [List.count_cons]
    | succ n =>
      simp only [List.getElem?_cons_succ] at h
      have hc := ih n h
      simp only [List.set_cons_succ, List.count_cons]
      omega

/-- The result of `runAux` does not depend on the fuel, as long as the fuel
exceeds the number of yet-unvisited instructions. -/
theorem runAux_fuel_irrel (prog : List Instruction) :
    ∀ f g (ex : List Bool) (a : Int) (ip : Nat),
      ex.count false < f → ex.count false < g →
      runAux prog f ex a ip = runAux prog g ex a ip := by
  intro f
  induction f with
  | zero => intro g ex a ip h1 _; exact absurd h1 (Nat.not_lt_zero _)
  | succ f ih =>
    intro g ex a ip h1 h2
    cases g with
    | zero => exact absurd h2 (Nat.not_lt_zero _)
    | succ g =>
      by_cases hip : ip = prog.length
      · rw [runAux_len prog f ex a ip hip, runAux_len prog g ex a ip hip]
      · cases hex : ex[ip]? with
        | none => rw [runAux_oob prog f ex a ip hip hex, runAux_oob prog g ex a ip hip hex]
        | some b =>
          cases b with
          | true =>
            rw [runAux_revisit prog f ex a ip hip hex, runAux_revisit prog g ex a ip hip hex]
          | false =>
            have hcount := count_false_set_true ex ip hex
            cases hpr : prog[ip]? with
            | none => rw [runAux_oob2 prog f ex a ip hip hex hpr,
                runAux_oob2 prog g ex a ip hip hex hpr]
            | some ins =>
              cases ins with
              | nop v =>
                rw [runAux_nop prog f ex a ip v hip hex hpr,
                  runAux_nop prog g ex a ip v hip hex hpr,
                  ih g _ _ _ (by omega) (by omega)]
              | acc v =>
                rw [runAux_acc prog f ex a ip v hip hex hpr,
                  runAux_acc prog g ex a ip v hip hex hpr,
                  ih g _ _ _ (by omega) (by omega)]
              | jmp v =>
                rw [runAux_jmp prog f ex a ip v hip hex hpr,
                  runAux_jmp prog g ex a ip v hip hex hpr,
                  ih g _ _ _ (by omega) (by omega)]

/-- With fuel exceeding the number of yet-unvisited instructions, the fuel
never runs out. -/
theorem runAux_ne_fuelOut (prog : List Instruction) :
    ∀ f (ex : List Bool) (a : Int) (ip : Nat),
      ex.count false < f → (runAux prog f ex a ip).1 ≠ .fuelOut := by
  intro f
  induction f with
  | zero => intro ex a ip h1 _; exact absurd h1 (Nat.not_lt_zero _)
  | succ f ih =>
    intro ex a ip h1
    by_cases hip : ip = prog.length
    · rw [runAux_len prog f ex a ip hip]; simp
    · cases hex : ex[ip]? with
      | none => rw [runAux_oob prog f ex a ip hip hex]; simp
      | some b =>
        cases b with
        | true => rw [runAux_revisit prog f ex a ip hip hex]; simp
        | false =>
          have hcount := count_false_set_true ex ip hex
          cases hpr : prog[ip]? with
          | none => rw [runAux_oob2 prog f ex a ip hip hex hpr]; simp
          | some ins =>
            cases ins with
            | nop v =>
              rw [runAux_nop prog f ex a ip v hip hex hpr]
              exact ih _ _ _ (by omega)
            | acc v =>
              rw [runAux_acc prog f ex a ip v hip hex hpr]
              exact ih _ _ _ (by omega)
            | jmp v =>
              rw [runAux_jmp prog f ex a ip v hip hex hpr]
              exact ih _ _ _ (by omega)

/-- When every instruction pointer recorded in the trace is within
`0..=length`, the out-of-bounds branches are unreachable. -/
theorem runAux_ne_panicked (prog : List Instruction) :
    ∀ f (ex : List Bool) (a : Int) (ip : Nat),
      ex.length = prog.length →
      (∀ i ∈ (runAux prog f ex a ip).2, i ≤ prog.length) →
      (runAux prog f ex a ip).1 ≠ .panicked := by
  intro f
  induction f with
  | zero => intro ex a ip _ _; rw [runAux_zero]; simp
  | succ f ih =>
    intro ex a ip hlen hmem
    by_cases hip : ip = prog.length
    · rw [runAux_len prog f ex a ip hip]; simp
    · cases hex : ex[ip]? with
      | none =>
        exfalso
        rw [runAux_oob prog f ex a ip hip hex] at hmem
        have h1 : ip ≤ prog.length := hmem ip (by simp)
        have h2 : ex.length ≤ ip := List.getElem?_eq_none_iff.mp hex
        omega
      | some b =>
        cases b with
        | true => rw [runAux_revisit prog f ex a ip hip hex]; simp
        | false =>
          cases hpr : prog[ip]? with
          | none =>
            exfalso
            rw [runAux_oob2 prog f ex a ip hip hex hpr] at hmem
            have h1 : ip ≤ prog.length := hmem ip (by simp)
            have h2 : prog.length ≤ ip := List.getElem?_eq_none_iff.mp hpr
            omega
          | some ins =>
            have hlen2 : (ex.set ip true).length = prog.length := by
              rw [List.length_set]; exact hlen
            cases ins with
            | nop v =>
              rw [runAux_nop prog f ex a ip v hip hex hpr] at hmem ⊢
              exact ih _ _ _ hlen2 fun i hi => hmem i (by simp [consTrace]; right; simpa using hi)
            | acc v =>
              rw [runAux_acc prog f ex a ip v hip hex hpr] at hmem ⊢
              exact ih _ _ _ hlen2 fun i hi => hmem i (by simp [consTrace]; right; simpa using hi)
            | jmp v =>
              rw [runAux_jmp prog f ex a ip v hip hex hpr] at hmem ⊢
              exact ih _ _ _ hlen2 fun i hi => hmem i (by simp [consTrace]; right; simpa using hi)

/-- The initial visited-marker vector is all false, so the fuel
`length + 1` supplied by `run` is enough: `run` never runs out of fuel. -/
theorem run_ne_fuelOut (prog : List Instruction) : run prog ≠ .fuelOut := by
  apply runAux_ne_fuelOut
  simp [List.count_replicate_self]

/-! Unfolding lemmas for `run_with_fix_aux`, one per branch. -/

theorem rwf_zero (orig : List Instruction) (ip : Nat) :
    run_with_fix_aux orig 0 ip = run orig := rfl

theorem rwf_none (orig : List Instruction) (rem ip : Nat) (h : orig[ip]? = none) :
    run_with_fix_aux orig (rem + 1) ip = run orig := by
  simp [run_with_fix_aux, h]

theorem rwf_acc (orig : List Instruction) (rem ip : Nat) (v : Int)
    (h : orig[ip]? = some (.acc v)) :
    run_with_fix_aux orig (rem + 1) ip = run_with_fix_aux orig rem (ip + 1) := by
  simp [run_with_fix_aux, h]

theorem rwf_nop_terminated (orig : List Instruction) (rem ip : Nat) (v : Int) (a : Int)
    (h : orig[ip]? = some (.nop v)) (hr : run (orig.set ip (.jmp v)) = .terminated a) :
    run_with_fix_aux orig (rem + 1) ip = .terminated a := by
  simp [run_with_fix_aux, h, hr]

theorem rwf_nop_cyclic (orig : List Instruction) (rem ip : Nat) (v : Int) (b : Int)
    (h : orig[ip]? = some (.nop v)) (hr : run (orig.set ip (.jmp v)) = .cyclic b) :
    run_with_fix_aux orig (rem + 1) ip = run_with_fix_aux orig rem (ip + 1) := by
  simp [run_with_fix_aux, h, hr]

theorem rwf_nop_panicked (orig : List Instruction) (rem ip : Nat) (v : Int)
    (h : orig[ip]? = some (.nop v)) (hr : run (orig.set ip (.jmp v)) = .panicked) :
    run_with_fix_aux orig (rem + 1) ip = .panicked := by
  simp [run_with_fix_aux, h, hr]

theorem rwf_jmp_terminated (orig : List Instruction) (rem ip : Nat) (v : Int) (a : Int)
    (h : orig[ip]? = some (.jmp v)) (hr : run (orig.set ip (.nop v)) = .terminated a) :
    run_with_fix_aux orig (rem + 1) ip = .terminated a := by
  simp [run_with_fix_aux, h, hr]

theorem rwf_jmp_cyclic (orig : List Instruction) (rem ip : Nat) (v : Int) (b : Int)
    (h : orig[ip]? = some (.jmp v)) (hr : run (orig.set ip (.nop v)) = .cyclic b) :
    run_with_fix_aux orig (rem + 1) ip = run_with_fix_aux orig rem (ip + 1) := by
  simp [run_with_fix_aux, h, hr]

theorem rwf_jmp_panicked (orig : List Instruction) (rem ip : Nat) (v : Int)
    (h : orig[ip]? = some (.jmp v)) (hr : run (orig.set ip (.nop v)) = .panicked) :
    run_with_fix_aux orig (rem + 1) ip = .panicked := by
  simp [run_with_fix_aux, h, hr]

/-- A result satisfies `isCyclic` exactly when it is `Cyclic` of some
accumulator value. -/
theorem isCyclic_iff (r : BootCodeResult) : isCyclic r = true ↔ ∃ b, r = .cyclic b := by
  cases r <;> simp [isCyclic]

/-- A result satisfies `isTerminated` exactly when it is `Terminated` of
some accumulator value. -/
theorem isTerminated_iff (r : BootCodeResult) :
    isTerminated r = true ↔ ∃ a, r = .terminated a := by
  cases r <;> simp [isTerminated]

/-- If the flip candidate at index `i` (at or beyond the enumeration
position `ip`) terminates, and every earlier candidate from `ip` on is
skipped, the enumeration returns that candidate result. -/
theorem run_with_fix_aux_first (orig : List Instruction) (i : Nat) (a : Int)
    (hcand : (∃ v, orig[i]? = some (.nop v) ∧ run (orig.set i (.jmp v)) = .terminated a)
      ∨ (∃ v, orig[i]? = some (.jmp v) ∧ run (orig.set i (.nop v)) = .terminated a)) :
    ∀ rem ip, ip ≤ i → i < ip + rem →
      (∀ j, ip ≤ j → j < i → flipSkips orig j = true) →
      run_with_fix_aux orig rem ip = .terminated a := by
  have hilen : i < orig.length := by
    rcases hcand with ⟨v, hv, _⟩ | ⟨v, hv, _⟩ <;> exact (List.getElem?_eq_some.mp hv).1
  intro rem
  induction rem with
  | zero => intro ip h1 h2 _; omega
  | succ rem ih =>
    intro ip h1 h2 hskip
    by_cases hip : ip = i
    · subst hip
      rcases hcand with ⟨v, hv, hr⟩ | ⟨v, hv, hr⟩
      · exact rwf_nop_terminated orig rem ip v a hv hr
      · exact rwf_jmp_terminated orig rem ip v a hv hr
    · have hlt : ip < i := by omega
      have hsk := hskip ip (Nat.le_refl ip) hlt
      have hnext : ∀ j, ip + 1 ≤ j → j < i → flipSkips orig j = true :=
        fun j hj1 hj2 => hskip j (by omega) hj2
      unfold flipSkips at hsk
      cases hpr : orig[ip]? with
      | none =>
        exfalso
        have : orig.length ≤ ip := List.getElem?_eq_none_iff.mp hpr
        omega
      | some ins =>
        rw [hpr] at hsk
        cases ins with
        | acc v =>
          rw [rwf_acc orig rem ip v hpr]
          exact ih (ip + 1) (by omega) (by omega) hnext
        | nop v =>
          obtain ⟨b, hb⟩ := (isCyclic_iff _).mp hsk
          rw [rwf_nop_cyclic orig rem ip v b hpr hb]
          exact ih (ip + 1) (by omega) (by omega) hnext
        | jmp v =>
          obtain ⟨b, hb⟩ := (isCyclic_iff _).mp hsk
          rw [rwf_jmp_cyclic orig rem ip v b hpr hb]
          exact ih (ip + 1) (by omega) (by omega) hnext

/-- A `Terminated` result of the enumeration comes either from a
single-flip candidate that terminates, or from the fallback run of the
unmodified program. -/
theorem run_with_fix_aux_terminated_source (orig : List Instruction) :
    ∀ rem ip a, run_with_fix_aux orig rem ip = .terminated a →
      (∃ i v, (orig[i]? = some (.nop v) ∧ run (orig.set i (.jmp v)) = .terminated a)
        ∨ (orig[i]? = some (.jmp v) ∧ run (orig.set i (.nop v)) = .terminated a))
      ∨ run orig = .terminated a := by
  intro rem
  induction rem with
  | zero => intro ip a h; rw [rwf_zero] at h; exact Or.inr h
  | succ rem ih =>
    intro ip a h
    cases hpr : orig[ip]? with
    | none => rw [rwf_none orig rem ip hpr] at h; exact Or.inr h
    | some ins =>
      cases ins with
      | acc v => rw [rwf_acc orig rem ip v hpr] at h; exact ih (ip + 1) a h
      | nop v =>
        cases hr : run (orig.set ip (.jmp v)) with
        | terminated b =>
          rw [rwf_nop_terminated orig rem ip v b hpr hr] at h
          cases h
          exact Or.inl ⟨ip, v, Or.inl ⟨hpr, hr⟩⟩
        | cyclic b => rw [rwf_nop_cyclic orig rem ip v b hpr hr] at h; exact ih (ip + 1) a h
        | panicked =>
          rw [rwf_nop_panicked orig rem ip v hpr hr] at h
          exact absurd h (by simp)
        | fuelOut => exact absurd hr (run_ne_fuelOut _)
      | jmp v =>
        cases hr : run (orig.set ip (.nop v)) with
        | terminated b =>
          rw [rwf_jmp_terminated orig rem ip v b hpr hr] at h
          cases h
          exact Or.inl ⟨ip, v, Or.inr ⟨hpr, hr⟩⟩
        | cyclic b => rw [rwf_jmp_cyclic orig rem ip v b hpr hr] at h; exact ih (ip + 1) a h
        | panicked =>
          rw [rwf_jmp_panicked orig rem ip v hpr hr] at h
          exact absurd h (by simp)
        | fuelOut => exact absurd hr (run_ne_fuelOut _)

/-- When every single-flip candidate runs to `Cyclic`, the enumeration
falls through to the run of the unmodified program. -/
theorem run_with_fix_aux_fallback (orig : List Instruction)
    (hnop : ∀ i v, orig[i]? = some (.nop v) → ∃ b, run (orig.set i (.jmp v)) = .cyclic b)
    (hjmp : ∀ i v, orig[i]? = some (.jmp v) → ∃ b, run (orig.set i (.nop v)) = .cyclic b) :
    ∀ rem ip, run_with_fix_aux orig rem ip = run orig := by
  intro rem
  induction rem with
  | zero => intro ip; exact rwf_zero orig ip
  | succ rem ih =>
    intro ip
    cases hpr : orig[ip]? with
    | none => exact rwf_none orig rem ip hpr
    | some ins =>
      cases ins with
      | acc v => rw [rwf_acc orig rem ip v hpr]; exact ih (ip + 1)
      | nop v =>
        obtain ⟨b, hb⟩ := hnop ip v hpr
        rw [rwf_nop_cyclic orig rem ip v b hpr hb]
        exact ih (ip + 1)
      | jmp v =>
        obtain ⟨b, hb⟩ := hjmp ip v hpr
        rw [rwf_jmp_cyclic orig rem ip v b hpr hb]
        exact ih (ip + 1)

/-- Every run of the interpreter yields `Terminated`, `Cyclic`, or the
out-of-bounds panic; the fuel artifact never shows. -/
theorem run_cases (prog : List Instruction) :
    (∃ a, run prog = .terminated a) ∨ (∃ a, run prog = .cyclic a) ∨ run prog = .panicked := by
  cases h : run prog with
  | terminated a => exact Or.inl ⟨a, rfl⟩
  | cyclic a => exact Or.inr (Or.inl ⟨a, rfl⟩)
  | panicked => exact Or.inr (Or.inr rfl)
  | fuelOut => exact absurd h (run_ne_fuelOut prog)

/-- Every value taken by the enumeration yields `Terminated`, `Cyclic`,
or the out-of-bounds panic. -/
theorem run_with_fix_aux_cases (orig : List Instruction) :
    ∀ rem ip, (∃ a, run_with_fix_aux orig rem ip = .terminated a)
      ∨ (∃ a, run_with_fix_aux orig rem ip = .cyclic a)
      ∨ run_with_fix_aux orig rem ip = .panicked := by
  intro rem
  induction rem with
  | zero => intro ip; rw [rwf_zero]; exact run_cases orig
  | succ rem ih =>
    intro ip
    cases hpr : orig[ip]? with
    | none => rw [rwf_none orig rem ip hpr]; exact run_cases orig
    | some ins =>
      cases ins with
      | acc v => rw [rwf_acc orig rem ip v hpr]; exact ih (ip + 1)
      | nop v =>
        cases hr : run (orig.set ip (.jmp v)) with
        | terminated b =>
          rw [rwf_nop_terminated orig rem ip v b hpr hr]
          exact Or.inl ⟨b, rfl⟩
        | cyclic b => rw [rwf_nop_cyclic orig rem ip v b hpr hr]; exact ih (ip + 1)
        | panicked =>
          rw [rwf_nop_panicked orig rem ip v hpr hr]
          exact Or.inr (Or.inr rfl)
        | fuelOut => exact absurd hr (run_ne_fuelOut _)
      | jmp v =>
        cases hr : run (orig.set ip (.nop v)) with
        | terminated b =>
          rw [rwf_jmp_terminated orig rem ip v b hpr hr]
          exact Or.inl ⟨b, rfl⟩
        | cyclic b => rw [rwf_jmp_cyclic orig rem ip v b hpr hr]; exact ih (ip + 1)
        | panicked =>
          rw [rwf_jmp_panicked orig rem ip v hpr hr]
          exact Or.inr (Or.inr rfl)
        | fuelOut => exact absurd hr (run_ne_fuelOut _)

/-! Claim theorems. -/

/-- C1: `run` starts with accumulator 0, pointer 0 and all visited markers
false, and loops while the pointer differs from the program length: a
pointer equal to the length yields `Terminated(acc)`; an already-visited
instruction yields `Cyclic(acc)` without being executed; otherwise the
index is marked visited and the instruction executed — `Nop` advances the
pointer by one, `Acc v` adds `v` to the accumulator and advances by one,
`Jmp v` moves the pointer by the signed offset via `jmp_ip`. -/
theorem run_loop_characterization (prog : List Instruction) :
    run prog = (runAux prog (prog.length + 1) (List.replicate prog.length false) 0 0).1
    ∧ ∀ (f : Nat) (ex : List Bool) (a : Int) (ip : Nat),
      (ip = prog.length → (runAux prog (f + 1) ex a ip).1 = .terminated a)
      ∧ (ip ≠ prog.length → ex[ip]? = some true → (runAux prog (f + 1) ex a ip).1 = .cyclic a)
      ∧ (∀ v, ip ≠ prog.length → ex[ip]? = some false → prog[ip]? = some (.nop v) →
          (runAux prog (f + 1) ex a ip).1 = (runAux prog f (ex.set ip true) a (ip + 1)).1)
      ∧ (∀ v, ip ≠ prog.length → ex[ip]? = some false → prog[ip]? = some (.acc v) →
          (runAux prog (f + 1) ex a ip).1 = (runAux prog f (ex.set ip true) (a + v) (ip + 1)).1)
      ∧ (∀ v, ip ≠ prog.length → ex[ip]? = some false → prog[ip]? = some (.jmp v) →
          (runAux prog (f + 1) ex a ip).1
            = (runAux prog f (ex.set ip true) a (jmp_ip ip v)).1) := by
  refine ⟨rfl, fun f ex a ip => ⟨?_, ?_, ?_, ?_, ?_⟩⟩
  · intro h; rw [runAux_len prog f ex a ip h]
  · intro h hex; rw [runAux_revisit prog f ex a ip h hex]
  · intro v h hex hpr; rw [runAux_nop prog f ex a ip v h hex hpr]; rfl
  · intro v h hex hpr; rw [runAux_acc prog f ex a ip v h hex hpr]; rfl
  · intro v h hex hpr; rw [runAux_jmp prog f ex a ip v h hex hpr]; rfl

/-- C1 witness: the characterization applied to the one-instruction
program `acc +5` at its two loop iterations. -/
theorem run_loop_characterization_witness :
    (runAux [Instruction.acc 5] 1 [false] 0 0).1
      = (runAux [Instruction.acc 5] 0 ([false].set 0 true) (0 + 5) (0 + 1)).1
    ∧ (runAux [Instruction.acc 5] 1 [true] 7 1).1 = .terminated 7 := by
  have h := run_loop_characterization [Instruction.acc 5]
  constructor
  · exact ((h.2 0 [false] 0 0).2.2.2.1) 5 (by decide) (by decide) (by decide)
  · have h2 := h.2
    exact (h2 0 [true] 7 1).1 (by decide)

/-- C2: `run_with_fix` enumerates the instruction indices in ascending
order, flips `Nop(v)` to `Jmp(v)` and `Jmp(v)` to `Nop(v)` on a copy,
never uses `Acc` as a flip candidate, and returns the first candidate
result that is `Terminated`. -/
theorem run_with_fix_first_fix (orig : List Instruction) (i : Nat) (a : Int)
    (hcand : (∃ v, orig[i]? = some (.nop v) ∧ run (orig.set i (.jmp v)) = .terminated a)
      ∨ (∃ v, orig[i]? = some (.jmp v) ∧ run (orig.set i (.nop v)) = .terminated a))
    (hskip : ∀ j, j < i → flipSkips orig j = true) :
    run_with_fix orig = .terminated a := by
  have hilen : i < orig.length := by
    rcases hcand with ⟨v, hv, _⟩ | ⟨v, hv, _⟩ <;> exact (List.getElem?_eq_some.mp hv).1
  exact run_with_fix_aux_first orig i a hcand orig.length 0 (by omega) (by omega)
    (fun j _ hj => hskip j hj)

/-- C2 witness: on the 9-instruction example, index 7 (`jmp -4`) is the
first flip whose candidate terminates, with accumulator 8. -/
theorem run_with_fix_first_fix_witness : run_with_fix ex9 = .terminated 8 := by
  apply run_with_fix_first_fix ex9 7 8
  · exact Or.inr ⟨-4, by decide, by decide⟩
  · intro j hj
    interval_cases j <;> decide

/-- C3 counterexample: on the single-instruction program `acc +5`,
`run_with_fix` returns `Terminated(5)` produced by the fallback run of
the unmodified program, while not a single flip candidate exists (no
instruction is `Nop` or `Jmp`), so no program differing from the original
at exactly one such index produced the result. -/
theorem run_with_fix_terminated_no_flip_counterexample :
    run_with_fix [Instruction.acc 5] = .terminated 5
    ∧ flipCandidates [Instruction.acc 5] = []
    ∧ run [Instruction.acc 5] = .terminated 5 := by decide

/-- C3 (amended): if `run_with_fix` returns `Terminated(acc)`, then either
some index `i` holds a `Nop` or `Jmp` in the original and the single-flip
candidate at `i` — a program differing from the original at exactly the
index `i` — runs to `Terminated(acc)`, or the fallback run of the
unmodified original (differing at no index) returns `Terminated(acc)`. -/
theorem run_with_fix_terminated_source_thm (orig : List Instruction) (a : Int)
    (h : run_with_fix orig = .terminated a) :
    (∃ i v,
      (orig[i]? = some (.nop v)
        ∧ (orig.set i (.jmp v))[i]? ≠ orig[i]?
        ∧ (∀ j, j ≠ i → (orig.set i (.jmp v))[j]? = orig[j]?)
        ∧ run (orig.set i (.jmp v)) = .terminated a)
      ∨ (orig[i]? = some (.jmp v)
        ∧ (orig.set i (.nop v))[i]? ≠ orig[i]?
        ∧ (∀ j, j ≠ i → (orig.set i (.nop v))[j]? = orig[j]?)
        ∧ run (orig.set i (.nop v)) = .terminated a))
    ∨ run orig = .terminated a := by
  rcases run_with_fix_aux_terminated_source orig orig.length 0 a h with ⟨i, v, hc⟩ | hr
  · left
    rcases hc with ⟨hv, hr⟩ | ⟨hv, hr⟩
    · have hi : i < orig.length := (List.getElem?_eq_some.mp hv).1
      refine ⟨i, v, Or.inl ⟨hv, ?_, ?_, hr⟩⟩
      · rw [List.getElem?_set_eq_of_lt _ hi, hv]; simp
      · intro j hj; exact List.getElem?_set_ne (Ne.symm hj)
    · have hi : i < orig.length := (List.getElem?_eq_some.mp hv).1
      refine ⟨i, v, Or.inr ⟨hv, ?_, ?_, hr⟩⟩
      · rw [List.getElem?_set_eq_of_lt _ hi, hv]; simp
      · intro j hj; exact List.getElem?_set_ne (Ne.symm hj)
  · right; exact hr

/-- C3 witness: the amended statement applied to the single-instruction
program `acc +5`. -/
theorem run_with_fix_terminated_source_thm_witness :
    (∃ i v,
      ([Instruction.acc 5][i]? = some (.nop v)
        ∧ ([Instruction.acc 5].set i (.jmp v))[i]? ≠ [Instruction.acc 5][i]?
        ∧ (∀ j, j ≠ i → ([Instruction.acc 5].set i (.jmp v))[j]? = [Instruction.acc 5][j]?)
        ∧ run ([Instruction.acc 5].set i (.jmp v)) = .terminated 5)
      ∨ ([Instruction.acc 5][i]? = some (.jmp v)
        ∧ ([Instruction.acc 5].set i (.nop v))[i]? ≠ [Instruction.acc 5][i]?
        ∧ (∀ j, j ≠ i → ([Instruction.acc 5].set i (.nop v))[j]? = [Instruction.acc 5][j]?)
        ∧ run ([Instruction.acc 5].set i (.nop v)) = .terminated 5))
    ∨ run [Instruction.acc 5] = .terminated 5 :=
  run_with_fix_terminated_source_thm [Instruction.acc 5] 5 (by decide)

/-- C4 counterexample: on `acc +5` there is no flip candidate at all, so
no flip produces a `Terminated` result, yet the fallback result is
`Terminated(5)`, not `Cyclic`; and on `nop -1; jmp +0; jmp -3` no flip
candidate terminates either, yet `run_with_fix` panics out of bounds
(through the first candidate) while `run` on the unmodified program gives
`Cyclic(0)`, so the two results also differ. -/
theorem run_with_fix_fallback_counterexample :
    (flipCandidates [Instruction.acc 5] = []
      ∧ run_with_fix [Instruction.acc 5] = .terminated 5
      ∧ isCyclic (run [Instruction.acc 5]) = false)
    ∧ (((flipCandidates [Instruction.nop (-1), Instruction.jmp 0, Instruction.jmp (-3)]).all
          fun c => !(isTerminated (run c.2))) = true
      ∧ run_with_fix [Instruction.nop (-1), Instruction.jmp 0, Instruction.jmp (-3)] = .panicked
      ∧ run [Instruction.nop (-1), Instruction.jmp 0, Instruction.jmp (-3)] = .cyclic 0) := by
  decide

/-- C4 (amended): if every single-flip candidate runs to `Cyclic` — so in
particular no flip produces a `Terminated` result and none fails out of
bounds — then `run_with_fix` returns exactly the result of `run` on the
unmodified program; that fallback result may be `Terminated` as well as
`Cyclic`. -/
theorem run_with_fix_fallback_eq_run (orig : List Instruction)
    (hnop : ∀ i v, orig[i]? = some (.nop v) → ∃ b, run (orig.set i (.jmp v)) = .cyclic b)
    (hjmp : ∀ i v, orig[i]? = some (.jmp v) → ∃ b, run (orig.set i (.nop v)) = .cyclic b) :
    run_with_fix orig = run orig :=
  run_with_fix_aux_fallback orig hnop hjmp orig.length 0

/-- C4 witness: on `jmp +0; jmp +0` both flip candidates run to
`Cyclic(0)`, and `run_with_fix` equals `run` on the unmodified program. -/
theorem run_with_fix_fallback_eq_run_witness :
    run_with_fix [Instruction.jmp 0, Instruction.jmp 0]
      = run [Instruction.jmp 0, Instruction.jmp 0] := by
  apply run_with_fix_fallback_eq_run
  · intro i v h
    exfalso
    cases i with
    | zero => simp [List.getElem?_cons_zero] at h
    | succ n =>
      cases n with
      | zero => simp [List.getElem?_cons_succ, List.getElem?_cons_zero] at h
      | succ m => simp [List.getElem?_cons_succ, List.getElem?_nil] at h
  · intro i v h
    cases i with
    | zero =>
      simp [List.getElem?_cons_zero] at h
      subst h
      exact ⟨0, by decide⟩
    | succ n =>
      cases n with
      | zero =>
        simp [List.getElem?_cons_succ, List.getElem?_cons_zero] at h
        subst h
        exact ⟨0, by decide⟩
      | succ m => simp [List.getElem?_cons_succ, List.getElem?_nil] at h

/-- C5 counterexample: on `jmp +1; jmp -5` the second jump takes the
pointer below zero, wrapping to a huge index: both `run` and
`run_with_fix` end in the out-of-bounds panic, a third outcome beside
`Terminated` and `Cyclic`. -/
theorem run_panics_counterexample :
    run [Instruction.jmp 1, Instruction.jmp (-5)] = .panicked
    ∧ run_with_fix [Instruction.jmp 1, Instruction.jmp (-5)] = .panicked := by
  decide

/-- C5 (amended): every execution of `run`, and every execution of
`run_with_fix`, produces exactly one of `Terminated`, `Cyclic`, or the
out-of-bounds indexing failure — there is no further outcome (in
particular the fuel bound of the model is never hit). -/
theorem run_and_fix_outcomes (prog : List Instruction) :
    ((∃ a, run prog = .terminated a) ∨ (∃ a, run prog = .cyclic a) ∨ run prog = .panicked)
    ∧ ((∃ a, run_with_fix prog = .terminated a) ∨ (∃ a, run_with_fix prog = .cyclic a)
        ∨ run_with_fix prog = .panicked) :=
  ⟨run_cases prog, run_with_fix_aux_cases prog prog.length 0⟩

/-- C6: for a program of `N` instructions, `run` terminates within at most
`N + 1` loop iterations: any fuel of at least `N + 1` yields the very
result of `run`, and `run` itself never exhausts its fuel. -/
theorem run_terminates_within_bound (prog : List Instruction) (fuel : Nat)
    (h : prog.length + 1 ≤ fuel) :
    (runAux prog fuel (List.replicate prog.length false) 0 0).1 = run prog
    ∧ run prog ≠ .fuelOut := by
  constructor
  · unfold run
    rw [runAux_fuel_irrel prog fuel (prog.length + 1) (List.replicate prog.length false) 0 0
      (by rw [List.count_replicate_self]; omega) (by rw [List.count_replicate_self]; omega)]
  · exact run_ne_fuelOut prog

/-- C6 witness: the bound applied to the 9-instruction example with fuel
12. -/
theorem run_terminates_within_bound_witness :
    (runAux ex9 12 (List.replicate ex9.length false) 0 0).1 = run ex9
    ∧ run ex9 ≠ .fuelOut :=
  run_terminates_within_bound ex9 12 (by decide)

/-- C7: under the assumed precondition that every instruction-pointer
value reached during execution stays within `0..=N`, `run` performs only
in-bounds indexing: the out-of-bounds panic branch is unreachable and the
outcome is `Terminated` or `Cyclic`. -/
theorem run_inbounds_no_panic (prog : List Instruction)
    (h : ∀ i ∈ runPtrs prog, i ≤ prog.length) :
    run prog ≠ .panicked
    ∧ ((∃ a, run prog = .terminated a) ∨ ∃ a, run prog = .cyclic a) := by
  have hp : run prog ≠ .panicked :=
    runAux_ne_panicked prog (prog.length + 1) (List.replicate prog.length false) 0 0
      (by rw [List.length_replicate]) h
  refine ⟨hp, ?_⟩
  rcases run_cases prog with h1 | h1 | h1
  · exact Or.inl h1
  · exact Or.inr h1
  · exact absurd h1 hp

/-- C7 witness: the 9-instruction example reaches only the pointers
0, 1, 2, 6, 7, 3, 4, 1, all within bounds. -/
theorem run_inbounds_no_panic_witness :
    run ex9 ≠ .panicked ∧ ((∃ a, run ex9 = .terminated a) ∨ ∃ a, run ex9 = .cyclic a) :=
  run_inbounds_no_panic ex9 (by decide)

/-- C8: on the 9-instruction example program, `run` reports `Cyclic(5)`
and `run_with_fix` reports `Terminated(8)`. -/
theorem run_example_program : run ex9 = .cyclic 5 ∧ run_with_fix ex9 = .terminated 8 := by
  decide

/-- C9: on the single-instruction program `acc +5`, `run` reports
`Terminated(5)` and `run_with_fix`, having no flip candidate, falls back
to the original program and also reports `Terminated(5)`. -/
theorem run_single_acc :
    run [Instruction.acc 5] = .terminated 5
    ∧ run_with_fix [Instruction.acc 5] = .terminated 5 := by decide

/-- C10: `jmp_ip` is addition reduced modulo 2^64 (the two's-complement
cast chain through `isize` and back to `usize`); when `ip + jmp` is
negative the result is at least 2^63, and a backward jump below index
zero therefore makes `run` attempt an out-of-bounds index and fail
instead of wrapping to a valid instruction or terminating. -/
theorem jmp_ip_wraps (ip : Nat) (jmp : Int) (h1 : ip < 2 ^ 64)
    (h2 : -(2 ^ 31) ≤ jmp) (h3 : jmp < 2 ^ 31) :
    jmp_ip ip jmp = (((ip : Int) + jmp) % (2 : Int) ^ 64).toNat
    ∧ ((ip : Int) + jmp < 0 → 2 ^ 63 ≤ jmp_ip ip jmp)
    ∧ run [Instruction.jmp (-1)] = .panicked := by
  refine ⟨rfl, ?_, by decide⟩
  intro hneg
  unfold jmp_ip
  omega

/-- C10 witness: the wrap applied at pointer 0 with offset -1, the very
first backward jump below zero. -/
theorem jmp_ip_wraps_witness :
    jmp_ip 0 (-1) = ((((0 : Nat) : Int) + (-1)) % (2 : Int) ^ 64).toNat
    ∧ (((0 : Nat) : Int) + (-1) < 0 → 2 ^ 63 ≤ jmp_ip 0 (-1))
    ∧ run [Instruction.jmp (-1)] = .panicked :=
  jmp_ip_wraps 0 (-1) (by decide) (by decide) (by decide)

